import Mathlib

/-!
# QuizAI — formal model of the quiz-generation core

Shallow embedding, in Lean 4, of the algorithmic core of the QuizAI
repository: text chunking (`create_context_from_PDF.py`), the exclusion
filter and question generator (`get_quiz.py`), semantic retrieval and
topic→PDF resolution (`chat_with_PDF.py`), duplicate detection
(`firebase_backend.py`) and the quiz-session advance step (`main.py`).

Python strings are modelled as `List Char` (`Str`); `str.lower` as a
character-wise `Char.toLower` map; `str.strip` as dropping whitespace from
both ends; substring containment (`in`) as `List.IsInfix` on the lowered
character lists.  Network calls (model completions, embeddings, Firestore
reads) are oracle parameters: a completion attempt is `Option QuizQuestion`
(`none` = API error / JSON parse failure / schema violation), `random.shuffle`
is an arbitrary permutation-producing function, and cosine-similarity scores
are a list of rationals handed to the retrieval routine.
-/

/-- Python strings, modelled as lists of characters. -/
abbrev Str := List Char

/-- Coerce a Lean string literal to the `Str` model. -/
def strL (s : String) : Str := s.data

/-- `str.lower()`: character-wise lowercasing. -/
def lowerStr (s : Str) : Str := s.map Char.toLower

/-- `str.strip()`: drop whitespace from both ends. -/
def stripStr (s : Str) : Str :=
  ((s.dropWhile Char.isWhitespace).reverse.dropWhile Char.isWhitespace).reverse

/-- Python's `needle in haystack` substring test. -/
def isInfixB (needle haystack : Str) : Bool :=
  decide (needle <:+: haystack)

/-- `" ".join(parts)`: the parts verbatim with a single space between
consecutive parts. -/
def joinSpace : List Str → Str
  | [] => []
  | [s] => s
  | s :: rest => s ++ strL " " ++ joinSpace rest

/-! ## Chunker (`create_context_from_PDF.chunk_text`)

```python
def chunk_text(text, chunk_size=CHUNK_SIZE, overlap=OVERLAP):
    chunks = []
    start = 0
    while start < len(text):
        end = min(start + chunk_size, len(text))
        chunks.append(text[start:end].strip())
        start += chunk_size - overlap
    return chunks
```

The `while` loop is modelled with explicit fuel: `none` means the loop was
still running when the fuel ran out (so `∀ fuel, … = none` expresses
non-termination).  `text[start:end]` is `(text.take end).drop start`. -/

/-- One pass of the `while start < len(text)` loop, with fuel. -/
def chunkLoop (text : Str) (chunk_size overlap : Nat) (start : Nat) :
    Nat → Option (List Str)
  | 0 => none
  | fuel + 1 =>
    if start < text.length then
      match chunkLoop text chunk_size overlap (start + (chunk_size - overlap)) fuel with
      | none => none
      | some rest =>
          some (stripStr ((text.take (min (start + chunk_size) text.length)).drop start) :: rest)
    else
      some []

/-- `chunk_text(text, chunk_size, overlap)`.  Fuel `text.length + 1` is enough
whenever the loop terminates at all, since a terminating run advances `start`
by at least one per iteration. -/
def chunk_text (text : Str) (chunk_size overlap : Nat) : Option (List Str) :=
  chunkLoop text chunk_size overlap 0 (text.length + 1)

/-- The guard `if not text.strip()` of `chat_with_PDF._build_index_for_pdf`,
which reports "No extractable text found in this PDF" upstream of the
chunker. -/
def hasExtractableText (text : Str) : Bool :=
  !(stripStr text).isEmpty

/-! ## Exclusion filter and question generator (`get_quiz.py`) -/

/-- `_filter_chunks(chunks, exclude_terms)`: drop any chunk whose lowercased
text contains any lowercased excluded term; no-op when the term list is
empty. -/
def filterChunks (chunks : List Str) (exclude_terms : List Str) : List Str :=
  if exclude_terms.isEmpty then chunks
  else
    let lows := exclude_terms.map lowerStr
    chunks.filter (fun c => !(lows.any (fun t => isInfixB t (lowerStr c))))

/-- `_violates_exclusions(text, exclude_terms)`: `any(t in text.lower())`. -/
def violatesExclusions (text : Str) (exclude_terms : List Str) : Bool :=
  if exclude_terms.isEmpty then false
  else
    let low := lowerStr text
    exclude_terms.any (fun t => isInfixB t low)

/-- The `QuizQuestion` pydantic model: the parsed JSON response.  Note that
`options : List[str]` carries no length constraint in the source. -/
structure QuizQuestion where
  question : Str
  options : List Str
  answer : Str
  explanation : Str
  deriving Repr, DecidableEq

/-- The `" ".join([quiz.question] + quiz.options + [quiz.explanation])`
haystack checked against the exclusion terms. -/
def quizHaystack (quiz : QuizQuestion) : Str :=
  joinSpace ([quiz.question] ++ quiz.options ++ [quiz.explanation])

/-- Append to the per-topic `deque(maxlen=15)` of recent question stems:
append at the right, evict from the left once over capacity. -/
def appendStem (stems : List Str) (s : Str) : List Str :=
  let l := stems ++ [s]
  if l.length ≤ 15 then l else l.drop (l.length - 15)

/-- The `for attempt in range(max_retries)` loop of `get_quiz_from_topic`.
`responses` lists one oracle outcome per attempt: `none` models an exception
before a parsed quiz exists (API error or `parse_raw` failure), `some quiz`
a successfully parsed response.  An attempt whose haystack violates the
exclusions, or whose answer is not among its options (the `ValueError`,
caught by the `except`), falls through to the next attempt.  On the first
accepted attempt the options are shuffled (`shuffle` is the permutation
`random.shuffle` happened to produce), the stripped question text is appended
to the topic's stem memory, and the quiz is returned. -/
def attemptLoop (excl : List Str) (shuffle : List Str → List Str)
    (stems : List Str) : List (Option QuizQuestion) → Option QuizQuestion × List Str
  | [] => (none, stems)
  | none :: rest => attemptLoop excl shuffle stems rest
  | some quiz :: rest =>
    if violatesExclusions (quizHaystack quiz) excl then
      attemptLoop excl shuffle stems rest
    else if quiz.options.contains quiz.answer then
      (some { quiz with options := shuffle quiz.options },
       appendStem stems (stripStr quiz.question))
    else
      attemptLoop excl shuffle stems rest

/-- `get_quiz_from_topic(topic, api_key, context_chunks, exclude_terms,
max_retries)`.  The per-topic stem memory `_RECENT_QUESTION_STEMS[topic]` is
threaded explicitly as `stems` (input) and the second component of the result
(output).  Excluded terms are normalised by `t.strip().lower()`; if the
exclusion filter empties the context chunks the call aborts with `None`
before any attempt.  `responses` has one entry per attempt, so its length
plays the role of `max_retries`. -/
def getQuizFromTopic (stems : List Str) (context_chunks : List Str)
    (exclude_terms : List Str) (responses : List (Option QuizQuestion))
    (shuffle : List Str → List Str) : Option QuizQuestion × List Str :=
  let excl := exclude_terms.map (fun t => lowerStr (stripStr t))
  let usable := filterChunks context_chunks excl
  if usable.isEmpty then (none, stems)
  else attemptLoop excl shuffle stems responses

/-! ## Retrieval (`chat_with_PDF._retrieve_top_chunks`)

The cosine-similarity scores `_cosine_sim(q_vec, embs[i])` are network- and
float-derived, so they enter the model as an oracle: `sims : List ℚ`, one
score per chunk index.  Python's `sims.sort(reverse=True, key=lambda x: x[0])`
is a stable sort descending by score; on the `(score, index)` pairs (whose
indices are pairwise distinct) it coincides with sorting by the linear order
"higher score first, ties by lower original index first", which is what
`simOrder` expresses. -/

/-- Descending-score order on `(score, index)` pairs, ties broken by
ascending original index — the order realised by Python's stable
`sort(reverse=True, key=score)`. -/
def simOrder (a b : ℚ × Nat) : Prop :=
  b.1 < a.1 ∨ (a.1 = b.1 ∧ a.2 ≤ b.2)

instance : DecidableRel simOrder := fun a b => by
  unfold simOrder; infer_instance

instance : IsTotal (ℚ × Nat) simOrder where
  total a b := by
    unfold simOrder
    rcases lt_trichotomy a.1 b.1 with h | h | h
    · exact Or.inr (Or.inl h)
    · rcases Nat.le_total a.2 b.2 with h2 | h2
      · exact Or.inl (Or.inr ⟨h, h2⟩)
      · exact Or.inr (Or.inr ⟨h.symm, h2⟩)
    · exact Or.inl (Or.inl h)

instance : IsTrans (ℚ × Nat) simOrder where
  trans a b c hab hbc := by
    unfold simOrder at *
    rcases hab with h1 | ⟨e1, l1⟩
    · rcases hbc with h2 | ⟨e2, _⟩
      · exact Or.inl (h2.trans h1)
      · exact Or.inl (e2 ▸ h1)
    · rcases hbc with h2 | ⟨e2, l2⟩
      · exact Or.inl (e1 ▸ h2)
      · exact Or.inr ⟨e1.trans e2, l1.trans l2⟩

/-- The pair list `[(_cosine_sim(q_vec, embs[i]), i) for i in
range(len(chunks))]`, with the scores supplied by the `sims` oracle. -/
def simPairs (chunksLen : Nat) (sims : List ℚ) : List (ℚ × Nat) :=
  (List.range chunksLen).map (fun i => (sims.getD i 0, i))

/-- `_retrieve_top_chunks(index, question, k)`.  `sims = none` models an
index built with `embs = None` (no SDK / API key); `sims = some s` models an
index with vectors, `s` being the cosine similarities of the query embedding
against each chunk embedding. -/
def retrieveTopChunks (chunks : List Str) (sims : Option (List ℚ)) (k : Nat) :
    List Str :=
  match sims with
  | none => chunks.take k
  | some s =>
      let sorted := List.insertionSort simOrder (simPairs chunks.length s)
      (sorted.take k).map (fun p => chunks.getD p.2 [])

/-! ## Topic→PDF resolution (`chat_with_PDF`) -/

/-- `os.path.splitext(s)[0]` for a bare filename (no directory separators):
the stem before the last dot, where the dot must come at or after the run of
leading dots (so `".bashrc"` has no extension). -/
def splitextStem (s : Str) : Str :=
  let lead := (s.takeWhile (fun c => c = '.')).length
  let dotIdxs := (List.range s.length).filter
    (fun i => decide (lead ≤ i) && (s.getD i ' ' == '.'))
  match dotIdxs.getLast? with
  | some i => s.take i
  | none => s

/-- The stopword set of `_normalize_tokens`. -/
def stopTokens : List Str :=
  [strL "chapter", strL "chap", strL "ch", strL "pdf", strL "unit", strL "topic"]

/-- Split on whitespace runs, dropping empty pieces (Python `str.split()`). -/
def splitWs (s : Str) : List Str :=
  (s.splitOnP Char.isWhitespace).filter (fun t => !t.isEmpty)

/-- `_normalize_tokens(s)`: lowercase the stem, turn `_`/`-` and any
character outside `[a-z0-9]`/whitespace into spaces, split on whitespace and
drop stopwords.  (The source replaces *runs* of such characters via
`re.sub(...)`; replacing each character individually yields the same token
list after the whitespace split.) -/
def normalizeTokens (s : Str) : List Str :=
  let base := lowerStr (splitextStem s)
  let base := base.map (fun c => if c = '_' ∨ c = '-' then ' ' else c)
  let base := base.map (fun c =>
    if ('a' ≤ c ∧ c ≤ 'z') ∨ ('0' ≤ c ∧ c ≤ '9') ∨ c.isWhitespace then c else ' ')
  (splitWs base).filter (fun t => !(stopTokens.contains t))

/-- `_score_match(topic, filename)`: how many filename tokens (with
multiplicity) appear in the topic's token set. -/
def scoreMatch (topic filename : Str) : Nat :=
  let tTokens := normalizeTokens topic
  let fTokens := normalizeTokens filename
  (fTokens.filter (fun tok => tTokens.contains tok)).length

/-- `_resolve_pdf_for_topic(topic, pdf_files)`.  Empty list → `None`; a
single file is returned unconditionally; otherwise: exact stem match, then
stem-prefix match, then substring match against the full filename, then the
first file attaining the maximal token-overlap score provided that score is
positive (`sorted(..., key=score, reverse=True)[0]` with Python's stable
sort picks exactly the earliest maximal-score file). -/
def resolvePdfForTopic (topic : Str) (pdf_files : List Str) : Option Str :=
  match pdf_files with
  | [] => none
  | [f] => some f
  | _ =>
    let tNorm := splitextStem (lowerStr topic)
    match pdf_files.find? (fun f => splitextStem (lowerStr f) == tNorm) with
    | some f => some f
    | none =>
      match pdf_files.find? (fun f => tNorm.isPrefixOf (splitextStem (lowerStr f))) with
      | some f => some f
      | none =>
        match pdf_files.find? (fun f => isInfixB tNorm (lowerStr f)) with
        | some f => some f
        | none =>
          let best := (pdf_files.map (scoreMatch topic)).foldl Nat.max 0
          if 0 < best then pdf_files.find? (fun f => scoreMatch topic f == best)
          else none

/-- Modelled from the spec sentence of claim C8 (a second definition, for
comparison with `resolvePdfForTopic`): "exact filename-stem match first,
then prefix match, then substring match, then token-overlap scoring, …
first match in original file-listing order within the earliest succeeding
pass … no match (None) when no pass succeeds and no token-overlap score is
positive" — with no special case for a single candidate. -/
def resolveSpecModel (topic : Str) (pdf_files : List Str) : Option Str :=
  let tNorm := splitextStem (lowerStr topic)
  match pdf_files.find? (fun f => splitextStem (lowerStr f) == tNorm) with
  | some f => some f
  | none =>
    match pdf_files.find? (fun f => tNorm.isPrefixOf (splitextStem (lowerStr f))) with
    | some f => some f
    | none =>
      match pdf_files.find? (fun f => isInfixB tNorm (lowerStr f)) with
      | some f => some f
      | none =>
        let best := (pdf_files.map (scoreMatch topic)).foldl Nat.max 0
        if 0 < best then pdf_files.find? (fun f => scoreMatch topic f == best)
        else none

/-! ## Duplicate detection (`firebase_backend.py`) -/

/-- A stored quiz-question document, restricted to the keys
`are_questions_identical` reads (`question`, `answer`, `options`; any other
keys, such as `topic`, are ignored by the predicate). -/
structure StoredQuestion where
  question : Str
  answer : Str
  options : List Str
  deriving Repr, DecidableEq

/-- Python `set(l1) == set(l2)`: the two lists have the same elements. -/
def sameSet (l1 l2 : List Str) : Bool :=
  l1.all (fun x => l2.contains x) && l2.all (fun x => l1.contains x)

/-- `are_questions_identical(q1, q2)`. -/
def are_questions_identical (q1 q2 : StoredQuestion) : Bool :=
  q1.question == q2.question && q1.answer == q2.answer
    && sameSet q1.options q2.options

/-- `is_duplicate_question(new_question)` with the Firestore stream supplied
as the oracle list `docs` (the exception branch, returning `False`, is the
`docs = []` degenerate case). -/
def is_duplicate_question (docs : List StoredQuestion)
    (new_question : StoredQuestion) : Bool :=
  docs.any (fun d => are_questions_identical d new_question)

/-! ## Quiz session advance (`main.next_question`)

Session state mirrors the `st.session_state` keys that `next_question`
reads or writes.  The question records are Python dicts mutated in place
(`q['user_answer'] = …`), so `questions[i]` and the record appended to
`quiz_data` are the same updated record.  The outcome of the inner
`get_quiz_from_topic` call is the oracle `fetch`. -/

/-- A question record as stored in `st.session_state.questions`: the
generated quiz fields plus the `user_answer` / `is_correct` keys that
`next_question` adds in place. -/
structure QRecord where
  question : Str
  options : List Str
  answer : Str
  explanation : Str
  user_answer : Option Str := none
  is_correct : Option Bool := none
  deriving Repr, DecidableEq, Inhabited

/-- The slice of `st.session_state` used by `next_question`.  `answers` maps
a question index to the submitted option index, `-1` marking a skip. -/
structure SessionState where
  questions : List QRecord
  answers : Nat → Option Int
  current_question : Nat
  right_answers : Nat
  wrong_answers : Nat
  quiz_complete : Bool
  quiz_data : List QRecord
  last_rendered_question : Int
  max_questions_override : Nat

/-- `answers[i] = v`. -/
def setAnswer (f : Nat → Option Int) (i : Nat) (v : Int) : Nat → Option Int :=
  fun j => if j = i then some v else f j

/-- `main.next_question(topic, save_to_db, topic_contexts)` on state `s`,
with `fetch` the oracle outcome of the `get_quiz_from_topic` call (consulted
only when a new question is actually needed; the Firestore save and the
`st.error` message are outside the session state). -/
def next_question (s : SessionState) (fetch : Option QRecord) : SessionState :=
  let i := s.current_question
  let s1 :=
    match s.answers i with
    | none =>
        { s with wrong_answers := s.wrong_answers + 1,
                 answers := setAnswer s.answers i (-1) }
    | some _ => s
  let a := (s1.answers i).getD (-1)
  let q0 := s1.questions.getD i default
  let ua : Str := if a ≠ -1 then q0.options.getD a.toNat [] else strL "Skipped"
  let q1 := { q0 with user_answer := some ua, is_correct := some (ua == q0.answer) }
  let s2 := { s1 with questions := s1.questions.set i q1,
                      quiz_data := s1.quiz_data ++ [q1] }
  if i + 1 ≥ s2.max_questions_override then
    { s2 with quiz_complete := true }
  else
    let s3 := { s2 with current_question := i + 1, last_rendered_question := -1 }
    if s3.current_question ≥ s3.questions.length then
      match fetch with
      | some qNext => { s3 with questions := s3.questions ++ [qNext] }
      | none => { s3 with current_question := s3.current_question - 1 }
    else s3

/-! ## Concrete demonstration inputs -/

/-- A parsed model response with three options, two of which equal the
answer: it passes the generator's only validation check (`answer in
options`). -/
def demoBadQuiz : QuizQuestion :=
  ⟨strL "q?", [strL "a", strL "a", strL "b"], strL "a", strL "e"⟩

/-- A well-formed parsed model response (4 distinct options). -/
def demoGoodQuiz : QuizQuestion :=
  ⟨strL "q", [strL "w", strL "x", strL "y", strL "z"], strL "x", strL "e"⟩

/-- `demoGoodQuiz` as returned after a reversing shuffle of its options. -/
def demoShuffledQuiz : QuizQuestion :=
  ⟨strL "q", [strL "z", strL "y", strL "x", strL "w"], strL "x", strL "e"⟩

/-- A parsed response whose option texts `"c"` and `"ab"` are individually
clean but can recombine across the `" "`-joins once the options are
reordered. -/
def demoSpanQuiz : QuizQuestion :=
  ⟨strL "Q", [strL "ab", strL "c", strL "d", strL "x"], strL "ab", strL "E"⟩

/-- A session question record. -/
def demoQRecord : QRecord :=
  ⟨strL "q", [strL "w", strL "x", strL "y", strL "z"], strL "x", strL "e", none, none⟩

/-- A fresh one-question session: question 0 on screen, nothing answered,
nothing scored, limit 10. -/
def demoSession : SessionState :=
  ⟨[demoQRecord], fun _ => none, 0, 0, 0, false, [], -1, 10⟩

/-- A stored question document. -/
def demoStored : StoredQuestion :=
  ⟨strL "q", strL "a", [strL "a", strL "b", strL "c", strL "d"]⟩

/-- The same question about to be re-saved, options in reversed order. -/
def demoStoredPerm : StoredQuestion :=
  ⟨strL "q", strL "a", [strL "d", strL "c", strL "b", strL "a"]⟩

/-! ## Helper lemmas -/

theorem ceilDiv_rec {b : Nat} (hb : 0 < b) {m : Nat} (hm : 0 < m) :
    (m + b - 1) / b = (m - b + b - 1) / b + 1 := by
  rcases le_or_lt m b with hle | hlt
  · have h2 : m - b = 0 := by omega
    have e1 : m + b - 1 = m - 1 + b := by omega
    have e2 : (m - 1) / b = 0 := Nat.div_eq_of_lt (by omega)
    have e3 : (0 + b - 1) / b = 0 := Nat.div_eq_of_lt (by omega)
    rw [e1, Nat.add_div_right _ hb, h2, e2, e3]
  · have e1 : m + b - 1 = m - 1 + b := by omega
    have e2 : m - b + b - 1 = m - b - 1 + b := by omega
    have e3 : m - 1 = m - b - 1 + b := by omega
    rw [e1, e3, e2, Nat.add_div_right _ hb]

theorem chunkLoop_count (text : Str) (size overlap : Nat) (h : overlap < size) :
    ∀ fuel start, text.length - start < fuel →
      ∃ cs, chunkLoop text size overlap start fuel = some cs ∧
        cs.length = (text.length - start + (size - overlap) - 1) / (size - overlap) := by
  intro fuel
  induction fuel with
  | zero => intro start hf; omega
  | succ fuel ih =>
    intro start hf
    by_cases hs : start < text.length
    · have hstep : 0 < size - overlap := by omega
      have hf' : text.length - (start + (size - overlap)) < fuel := by omega
      obtain ⟨cs, hcs, hlen⟩ := ih (start + (size - overlap)) hf'
      refine ⟨stripStr ((text.take (min (start + size) text.length)).drop start) :: cs,
        ?_, ?_⟩
      · simp only [chunkLoop]
        rw [if_pos hs, hcs]
      · have hm : 0 < text.length - start := by omega
        have hsub : text.length - (start + (size - overlap))
            = text.length - start - (size - overlap) := by omega
        simp only [List.length_cons, hlen]
        rw [hsub, ← ceilDiv_rec hstep hm]
    · refine ⟨[], ?_, ?_⟩
      · simp only [chunkLoop]
        rw [if_neg hs]
      · have h0 : text.length - start = 0 := by omega
        have e : (size - overlap - 1) / (size - overlap) = 0 :=
          Nat.div_eq_of_lt (by omega)
        simp [h0, e]

theorem stripStr_of_all_whitespace {s : Str} (h : ∀ c ∈ s, c.isWhitespace) :
    stripStr s = [] := by
  unfold stripStr
  have h1 : s.dropWhile Char.isWhitespace = [] :=
    List.dropWhile_eq_nil_iff.mpr h
  simp [h1]

theorem chunkLoop_all_whitespace (text : Str) (size overlap : Nat)
    (hw : ∀ c ∈ text, c.isWhitespace) :
    ∀ fuel start cs, chunkLoop text size overlap start fuel = some cs →
      ∀ c ∈ cs, c = [] := by
  intro fuel
  induction fuel with
  | zero => intro start cs hcs; simp [chunkLoop] at hcs
  | succ fuel ih =>
    intro start cs hcs
    by_cases hs : start < text.length
    · simp only [chunkLoop] at hcs
      rw [if_pos hs] at hcs
      cases hrec : chunkLoop text size overlap (start + (size - overlap)) fuel with
      | none => rw [hrec] at hcs; exact absurd hcs (by simp)
      | some rest =>
        rw [hrec] at hcs
        obtain rfl : _ :: rest = cs := by simpa using hcs
        intro c hc
        rcases List.mem_cons.mp hc with rfl | hmem
        · refine stripStr_of_all_whitespace ?_
          intro x hx
          exact hw x (List.mem_of_mem_take (List.mem_of_mem_drop hx))
        · exact ih _ rest hrec c hmem
    · simp only [chunkLoop] at hcs
      rw [if_neg hs] at hcs
      obtain rfl : ([] : List Str) = cs := by simpa using hcs
      intro c hc; simp at hc

/-! ## Claim theorems: chunker -/

/-- C4 (amended claim): for `overlap < size` the chunker terminates and
produces exactly `ceil(len(text) / (size - overlap))` chunks, i.e.
`(len + (size - overlap) - 1) / (size - overlap)` — not the spec's
`ceil(max(0, len - overlap) / (size - overlap))`.  Determinism is inherent:
`chunk_text` is a pure function of its arguments. -/
theorem chunk_text_count (text : Str) (size overlap : Nat) (h : overlap < size) :
    ∃ cs, chunk_text text size overlap = some cs ∧
      cs.length = (text.length + (size - overlap) - 1) / (size - overlap) := by
  obtain ⟨cs, hcs, hlen⟩ :=
    chunkLoop_count text size overlap h (text.length + 1) 0 (by omega)
  exact ⟨cs, hcs, by simpa using hlen⟩

/-- C4 (counterexample to the claim as stated): a 2500-character text with
chunk size 1000 and overlap 200 yields 4 chunks (window starts 0, 800, 1600
and 2400), while the claimed formula `ceil(max(0, len - overlap) / (size -
overlap))` gives 3. -/
theorem chunk_count_2500_example_refuted :
    (chunk_text (List.replicate 2500 'a') 1000 200).map List.length = some 4 ∧
    (max 0 (2500 - 200) + (1000 - 200) - 1) / (1000 - 200) = 3 := by
  constructor
  · obtain ⟨cs, hcs, hlen⟩ :=
      chunkLoop_count (List.replicate 2500 'a') 1000 200 (by norm_num) 2501 0
        (by rw [List.length_replicate]; omega)
    have hct : chunk_text (List.replicate 2500 'a') 1000 200 = some cs := by
      rw [chunk_text, List.length_replicate]
      exact hcs
    rw [List.length_replicate] at hlen
    norm_num at hlen
    rw [hct, Option.map, hlen]
  · norm_num

/-- C4 (witness): the count theorem applied to the 2500-character document
of the spec's end-to-end scenario (yielding 4 chunks). -/
theorem chunk_text_count_witness :
    200 < 1000 ∧ ∃ cs, chunk_text (List.replicate 2500 'a') 1000 200 = some cs ∧
      cs.length = ((List.replicate 2500 'a').length + (1000 - 200) - 1) / (1000 - 200) :=
  ⟨by norm_num, chunk_text_count (List.replicate 2500 'a') 1000 200 (by norm_num)⟩

/-- C5 (code bug): `chunk_text` neither rejects nor clamps `overlap >= size`;
on the non-empty text `"ab"` with `chunk_size = overlap = 1` the window
start never advances, so the loop never exits no matter how much fuel it is
given — the Python `while` loop runs forever instead of terminating. -/
theorem chunk_text_overlap_ge_size_loops :
    (∀ fuel, chunkLoop (strL "ab") 1 1 0 fuel = none) ∧
    chunk_text (strL "ab") 1 1 = none := by
  have hloop : ∀ fuel, chunkLoop (strL "ab") 1 1 0 fuel = none := by
    intro fuel
    induction fuel with
    | zero => rfl
    | succ fuel ih =>
      have hrec : chunkLoop (strL "ab") 1 1 (0 + (1 - 1)) fuel = none := ih
      simp only [chunkLoop]
      rw [if_pos (by decide : 0 < (strL "ab").length), hrec]
  exact ⟨hloop, hloop _⟩

/-- C6 (counterexample to the claim as stated): on the whitespace-only text
`" "` the chunker yields one chunk (the empty string), not zero chunks. -/
theorem chunker_whitespace_not_zero_chunks :
    chunk_text [' '] 1000 200 = some [[]] ∧ some ([[]] : List Str) ≠ some [] := by
  exact ⟨by decide, by decide⟩

/-- C6 (amended claim): the empty text yields zero chunks; a non-empty
whitespace-only text yields a non-empty list of chunks all of which are the
empty string; and the "no extractable content" condition on whitespace-only
text is what the upstream index builder's `if not text.strip()` guard
detects (before ever calling the chunker). -/
theorem chunker_empty_and_whitespace :
    (∀ size overlap : Nat, chunk_text [] size overlap = some []) ∧
    (∀ (text : Str) (size overlap : Nat), overlap < size → text ≠ [] →
      (∀ c ∈ text, c.isWhitespace) →
      ∃ cs, chunk_text text size overlap = some cs ∧ cs ≠ [] ∧ ∀ c ∈ cs, c = []) ∧
    (∀ text : Str, (∀ c ∈ text, c.isWhitespace) → hasExtractableText text = false) := by
  refine ⟨fun size overlap => rfl, ?_, ?_⟩
  · intro text size overlap h hne hw
    obtain ⟨cs, hcs, hlen⟩ := chunk_text_count text size overlap h
    refine ⟨cs, hcs, ?_, ?_⟩
    · have hpos : 0 < text.length := List.length_pos.mpr hne
      have hstep : 0 < size - overlap := by omega
      have : 1 ≤ cs.length := by
        rw [hlen]
        exact (Nat.one_le_div_iff hstep).mpr (by omega)
      intro hnil
      rw [hnil] at this
      simp at this
    · exact chunkLoop_all_whitespace text size overlap hw (text.length + 1) 0 cs hcs
  · intro text hw
    simp [hasExtractableText, stripStr_of_all_whitespace hw]

/-- C6 (witness): the amended claim evaluated on the whitespace-only text
`" "` with the default configuration. -/
theorem chunker_empty_and_whitespace_witness :
    200 < 1000 ∧ ([' '] : Str) ≠ [] ∧ (∀ c ∈ ([' '] : Str), c.isWhitespace) ∧
    (∃ cs, chunk_text [' '] 1000 200 = some cs ∧ cs ≠ [] ∧ ∀ c ∈ cs, c = []) ∧
    hasExtractableText [' '] = false :=
  ⟨by norm_num, by simp, by decide,
   chunker_empty_and_whitespace.2.1 [' '] 1000 200 (by norm_num) (by simp) (by decide),
   chunker_empty_and_whitespace.2.2 [' '] (by decide)⟩

/-! ## Helper lemmas: generator -/

theorem attemptLoop_success (excl : List Str) (shuffle : List Str → List Str)
    (stems : List Str) :
    ∀ (responses : List (Option QuizQuestion)) (q : QuizQuestion),
      (attemptLoop excl shuffle stems responses).1 = some q →
      ∃ quiz, violatesExclusions (quizHaystack quiz) excl = false ∧
        quiz.options.contains quiz.answer = true ∧
        q = { quiz with options := shuffle quiz.options } := by
  intro responses
  induction responses with
  | nil => intro q hq; simp [attemptLoop] at hq
  | cons r rest ih =>
    intro q hq
    cases r with
    | none => exact ih q hq
    | some quiz =>
      by_cases hv : violatesExclusions (quizHaystack quiz) excl
      · rw [attemptLoop, if_pos hv] at hq
        exact ih q hq
      · by_cases hc : quiz.options.contains quiz.answer
        · rw [attemptLoop, if_neg hv, if_pos hc] at hq
          obtain rfl : q = { quiz with options := shuffle quiz.options } := by
            simpa using hq.symm
          exact ⟨quiz, by simpa using hv, hc, rfl⟩
        · rw [attemptLoop, if_neg hv, if_neg hc] at hq
          exact ih q hq

theorem attemptLoop_none_stems (excl : List Str) (shuffle : List Str → List Str)
    (stems : List Str) :
    ∀ responses : List (Option QuizQuestion),
      (attemptLoop excl shuffle stems responses).1 = none →
      (attemptLoop excl shuffle stems responses).2 = stems := by
  intro responses
  induction responses with
  | nil => intro _; rfl
  | cons r rest ih =>
    intro hq
    cases r with
    | none => exact ih hq
    | some quiz =>
      by_cases hv : violatesExclusions (quizHaystack quiz) excl
      · rw [attemptLoop, if_pos hv] at hq ⊢
        exact ih hq
      · by_cases hc : quiz.options.contains quiz.answer
        · rw [attemptLoop, if_neg hv, if_pos hc] at hq
          simp at hq
        · rw [attemptLoop, if_neg hv, if_neg hc] at hq ⊢
          exact ih hq

theorem getQuizFromTopic_success (stems context_chunks exclude_terms : List Str)
    (responses : List (Option QuizQuestion)) (shuffle : List Str → List Str)
    (q : QuizQuestion)
    (hq : (getQuizFromTopic stems context_chunks exclude_terms responses shuffle).1
      = some q) :
    ∃ quiz,
      violatesExclusions (quizHaystack quiz)
        (exclude_terms.map (fun t => lowerStr (stripStr t))) = false ∧
      quiz.options.contains quiz.answer = true ∧
      q = { quiz with options := shuffle quiz.options } := by
  rw [getQuizFromTopic] at hq
  by_cases he : (filterChunks context_chunks
      (exclude_terms.map (fun t => lowerStr (stripStr t)))).isEmpty
  · rw [if_pos he] at hq; simp at hq
  · rw [if_neg he] at hq
    exact attemptLoop_success _ shuffle stems responses q hq

theorem violatesExclusions_eq_false_iff (text : Str) (excl : List Str) :
    violatesExclusions text excl = false ↔
      ∀ t ∈ excl, ¬ (t <:+: lowerStr text) := by
  rw [violatesExclusions]
  by_cases he : excl.isEmpty
  · rw [if_pos he]
    obtain rfl : excl = [] := by simpa [List.isEmpty_iff] using he
    simp
  · rw [if_neg he]
    simp [isInfixB]

theorem stripStr_infix_self (s : Str) : stripStr s <:+: s := by
  rw [stripStr]
  have h1 : s.dropWhile Char.isWhitespace <:+ s := List.dropWhile_suffix _
  have h2 : (s.dropWhile Char.isWhitespace).reverse.dropWhile Char.isWhitespace
      <:+ (s.dropWhile Char.isWhitespace).reverse := List.dropWhile_suffix _
  have h3 : ((s.dropWhile Char.isWhitespace).reverse.dropWhile
      Char.isWhitespace).reverse <+: s.dropWhile Char.isWhitespace := by
    have h4 := List.reverse_prefix.mpr h2
    rw [List.reverse_reverse] at h4
    exact h4
  exact h3.isInfix.trans h1.isInfix

theorem mem_joinSpace_infix : ∀ (parts : List Str) (p : Str), p ∈ parts →
    p <:+: joinSpace parts := by
  intro parts
  induction parts with
  | nil => intro p hp; simp at hp
  | cons s rest ih =>
    intro p hp
    cases rest with
    | nil =>
      obtain rfl : p = s := by simpa using hp
      exact List.infix_refl _
    | cons r rest' =>
      rcases List.mem_cons.mp hp with rfl | hmem
      · have hpre : p <+: joinSpace (p :: r :: rest') := by
          show p <+: p ++ strL " " ++ joinSpace (r :: rest')
          rw [List.append_assoc]
          exact List.prefix_append _ _
        exact hpre.isInfix
      · have htail : p <:+: joinSpace (r :: rest') := ih p hmem
        have hsuf : joinSpace (r :: rest') <:+ joinSpace (s :: r :: rest') := by
          show joinSpace (r :: rest') <:+ s ++ strL " " ++ joinSpace (r :: rest')
          rw [List.append_assoc]
          exact (List.suffix_append _ _).trans (List.suffix_append _ _)
        exact htail.trans hsuf.isInfix

/-! ## Claim theorems: question generator -/

/-- C1 (counterexample to the claim as stated): the generator accepts and
returns `demoBadQuiz`, whose options list has 3 entries (not 4) and whose
answer equals 2 of them (not exactly 1) — validation only checks
`answer in options`.  (`id` is one of the permutations `random.shuffle` can
produce.) -/
theorem quizgen_four_options_refuted :
    ((getQuizFromTopic [] [strL "material"] [] [some demoBadQuiz] id).1.map
      (fun q => (q.options.length, q.options.count q.answer))) = some (3, 2) ∧
    (3 ≠ 4 ∧ 2 ≠ 1) := by decide

/-- C1 (amended claim): every question the generator returns satisfies
`answer ∈ options`, and the post-validation shuffle preserves this because
it permutes the options; the generator enforces neither an option count of
4 nor uniqueness of the matching option. -/
theorem quizgen_answer_mem_options
    (stems context_chunks exclude_terms : List Str)
    (responses : List (Option QuizQuestion)) (shuffle : List Str → List Str)
    (hsh : ∀ l, (shuffle l).Perm l) (q : QuizQuestion)
    (hq : (getQuizFromTopic stems context_chunks exclude_terms responses
      shuffle).1 = some q) :
    q.answer ∈ q.options := by
  obtain ⟨quiz, hv, hc, rfl⟩ :=
    getQuizFromTopic_success stems context_chunks exclude_terms responses shuffle q hq
  have hm : quiz.answer ∈ quiz.options := List.elem_iff.mp hc
  exact ((hsh quiz.options).mem_iff).mpr hm

/-- C1 (witness): the amended claim on a concrete run whose shuffle reverses
the options. -/
theorem quizgen_answer_mem_options_witness :
    (∀ l : List Str, (List.reverse l).Perm l) ∧
    ((getQuizFromTopic [] [strL "m"] [] [some demoGoodQuiz] List.reverse).1
      = some demoShuffledQuiz) ∧
    demoShuffledQuiz.answer ∈ demoShuffledQuiz.options :=
  ⟨fun l => List.reverse_perm l, by decide,
   quizgen_answer_mem_options [] [strL "m"] [] [some demoGoodQuiz] List.reverse
     (fun l => List.reverse_perm l) demoShuffledQuiz (by decide)⟩

/-- C3 (counterexample to the claim as stated): with excluded term `"c ab"`,
the attempt's pre-shuffle combined text `"Q ab c d x E"` passes the
exclusion check, but the returned question — options shuffled to
`[x, d, c, ab]` — has combined text `"Q x d c ab E"`, which does contain
the excluded term: the term spans two reordered options. -/
theorem quizgen_excluded_term_in_returned_text :
    ((getQuizFromTopic [] [strL "studymaterial"] [strL "c ab"]
        [some demoSpanQuiz] List.reverse).1.map
      (fun q => violatesExclusions (quizHaystack q) [strL "c ab"])) = some true := by
  decide

/-- C3 (amended claim): if the generator returns a question, then no
excluded term occurs case-insensitively inside any single field of the
returned question — its question text, any one of its (shuffled) options,
or its explanation.  (Equivalently: the pre-shuffle combined text passes
the exclusion filter; only recombination across option boundaries after the
shuffle can reintroduce a term.) -/
theorem quizgen_no_excluded_term_in_fields
    (stems context_chunks exclude_terms : List Str)
    (responses : List (Option QuizQuestion)) (shuffle : List Str → List Str)
    (hsh : ∀ l, (shuffle l).Perm l) (q : QuizQuestion)
    (hq : (getQuizFromTopic stems context_chunks exclude_terms responses
      shuffle).1 = some q)
    (t : Str) (ht : t ∈ exclude_terms) (f : Str)
    (hf : f = q.question ∨ f ∈ q.options ∨ f = q.explanation) :
    ¬ (lowerStr t <:+: lowerStr f) := by
  intro hinf
  obtain ⟨quiz, hv, hc, rfl⟩ :=
    getQuizFromTopic_success stems context_chunks exclude_terms responses shuffle q hq
  have ht' : lowerStr (stripStr t)
      ∈ exclude_terms.map (fun t => lowerStr (stripStr t)) :=
    List.mem_map_of_mem _ ht
  have hvf := (violatesExclusions_eq_false_iff _ _).mp hv _ ht'
  have hfield : f ∈ [quiz.question] ++ quiz.options ++ [quiz.explanation] := by
    rcases hf with rfl | hf | rfl
    · simp
    · have : f ∈ quiz.options := ((hsh quiz.options).mem_iff).mp hf
      simp [this]
    · simp
  have hjoin : f <:+: quizHaystack quiz := by
    rw [quizHaystack]
    exact mem_joinSpace_infix _ f hfield
  have hlowf : lowerStr f <:+: lowerStr (quizHaystack quiz) :=
    List.IsInfix.map Char.toLower hjoin
  have hstrip : lowerStr (stripStr t) <:+: lowerStr t :=
    List.IsInfix.map Char.toLower (stripStr_infix_self t)
  exact hvf ((hstrip.trans hinf).trans hlowf)

/-- C3 (witness): the amended claim on a concrete run with excluded term
`"zzz"`, applied to the question field of the returned question. -/
theorem quizgen_no_excluded_term_in_fields_witness :
    (strL "zzz" ∈ [strL "zzz"]) ∧
    ((getQuizFromTopic [] [strL "m"] [strL "zzz"] [some demoGoodQuiz]
        List.reverse).1 = some demoShuffledQuiz) ∧
    ¬ (lowerStr (strL "zzz") <:+: lowerStr demoShuffledQuiz.question) :=
  ⟨by decide, by decide,
   quizgen_no_excluded_term_in_fields [] [strL "m"] [strL "zzz"]
     [some demoGoodQuiz] List.reverse (fun l => List.reverse_perm l)
     demoShuffledQuiz (by decide) (strL "zzz") (by decide)
     demoShuffledQuiz.question (Or.inl rfl)⟩

/-- C9 (claim confirmed): whenever `get_quiz_from_topic` returns failure
(`None`) — early abort or exhausted retries — the recent-stems memory for
the topic is returned exactly as it was passed in: a stem is appended only
on the successful attempt. -/
theorem stems_unchanged_on_failure
    (stems context_chunks exclude_terms : List Str)
    (responses : List (Option QuizQuestion)) (shuffle : List Str → List Str)
    (h : (getQuizFromTopic stems context_chunks exclude_terms responses
      shuffle).1 = none) :
    (getQuizFromTopic stems context_chunks exclude_terms responses shuffle).2
      = stems := by
  rw [getQuizFromTopic] at h ⊢
  by_cases he : (filterChunks context_chunks
      (exclude_terms.map (fun t => lowerStr (stripStr t)))).isEmpty
  · rw [if_pos he]
  · rw [if_neg he] at h ⊢
    exact attemptLoop_none_stems _ _ _ _ h

/-- C9 (witness): a run whose two attempts both fail to parse leaves the
stem memory `["old"]` untouched. -/
theorem stems_unchanged_on_failure_witness :
    ((getQuizFromTopic [strL "old"] [strL "m"] [] [none, none] id).1 = none) ∧
    ((getQuizFromTopic [strL "old"] [strL "m"] [] [none, none] id).2
      = [strL "old"]) :=
  ⟨by decide,
   stems_unchanged_on_failure [strL "old"] [strL "m"] [] [none, none] id (by decide)⟩

/-! ## Claim theorems: retrieval -/

/-- C7 (claim confirmed): with no vectors, retrieval returns exactly the
first `k` chunks in original order for any query; with vectors, the result
is obtained by sorting the `(score, index)` pairs by descending similarity
with ties broken by ascending original index (the unique `simOrder`-sorted
permutation, matching Python's stable descending sort) and taking the texts
of the first `k` — every selected pair ranks at least as high, in that
order, as every unselected pair.  On the spec's example — similarity scores
`[0.9, 0.95, 0.2]`, `k = 2` — it returns the chunks at indices 1 and 0, in
that order. -/
theorem retrieval_top_k :
    (∀ (chunks : List Str) (k : Nat), retrieveTopChunks chunks none k = chunks.take k) ∧
    (∀ (chunks : List Str) (sims : List ℚ) (k : Nat),
      ∃ ps, List.Sorted simOrder ps ∧ ps.Perm (simPairs chunks.length sims) ∧
        retrieveTopChunks chunks (some sims) k
          = (ps.take k).map (fun p => chunks.getD p.2 []) ∧
        ∀ a ∈ ps.take k, ∀ b ∈ ps.drop k, simOrder a b) ∧
    retrieveTopChunks [strL "A", strL "B", strL "C"]
      (some [(9 : ℚ)/10, (19 : ℚ)/20, (1 : ℚ)/5]) 2 = [strL "B", strL "A"] := by
  refine ⟨fun chunks k => rfl, ?_, ?_⟩
  · intro chunks sims k
    refine ⟨List.insertionSort simOrder (simPairs chunks.length sims),
      List.sorted_insertionSort simOrder _, List.perm_insertionSort simOrder _,
      rfl, ?_⟩
    have hs := List.sorted_insertionSort simOrder (simPairs chunks.length sims)
    rw [← List.take_append_drop k
      (List.insertionSort simOrder (simPairs chunks.length sims))] at hs
    exact (List.pairwise_append.mp hs).2.2
  · norm_num [retrieveTopChunks, simPairs, List.range_succ, List.insertionSort,
      List.orderedInsert, simOrder]

/-! ## Claim theorems: topic→PDF resolution -/

/-- C8 (counterexample to the claim as stated): with a single candidate file
the resolver returns it unconditionally — here topic `"zzz"` matches
`"intro.pdf"` by no pass (no exact/prefix/substring match and token-overlap
score 0, as the pass-based `resolveSpecModel` returning `none` certifies),
yet the resolver guesses `"intro.pdf"`. -/
theorem resolve_single_file_guesses :
    resolvePdfForTopic (strL "zzz") [strL "intro.pdf"] = some (strL "intro.pdf") ∧
    scoreMatch (strL "zzz") (strL "intro.pdf") = 0 ∧
    resolveSpecModel (strL "zzz") [strL "intro.pdf"] = none := by decide

/-- C8 (amended claim): except when exactly one candidate file is listed (in
which case it is returned unconditionally, matched or not), resolution
behaves exactly as claimed: exact stem match, then prefix, then substring,
then positive token-overlap score, first match in original listing order
within the earliest succeeding pass, `none` otherwise — this is
`resolveSpecModel`, written from the claim's words.  Determinism is
inherent: both functions are pure. -/
theorem resolve_eq_spec_unless_single (topic : Str) (pdf_files : List Str)
    (h : pdf_files.length ≠ 1) :
    resolvePdfForTopic topic pdf_files = resolveSpecModel topic pdf_files := by
  match pdf_files with
  | [] => rfl
  | [f] => exact absurd rfl h
  | f :: g :: rest => rfl

/-- C8 (witness): the amended claim on a two-file listing. -/
theorem resolve_eq_spec_unless_single_witness :
    ([strL "Chapter04 Repetition.pdf", strL "Chapter05 Functions.pdf"].length ≠ 1) ∧
    resolvePdfForTopic (strL "Chapter05 Functions")
        [strL "Chapter04 Repetition.pdf", strL "Chapter05 Functions.pdf"]
      = resolveSpecModel (strL "Chapter05 Functions")
        [strL "Chapter04 Repetition.pdf", strL "Chapter05 Functions.pdf"] :=
  ⟨by decide,
   resolve_eq_spec_unless_single (strL "Chapter05 Functions")
     [strL "Chapter04 Repetition.pdf", strL "Chapter05 Functions.pdf"] (by decide)⟩

/-! ## Claim theorems: duplicate detection -/

theorem sameSet_eq_true_iff (l1 l2 : List Str) :
    sameSet l1 l2 = true ↔ ∀ x, x ∈ l1 ↔ x ∈ l2 := by
  simp only [sameSet, Bool.and_eq_true, List.all_eq_true]
  constructor
  · rintro ⟨h1, h2⟩ x
    constructor
    · intro hx; simpa using h1 x hx
    · intro hx; simpa using h2 x hx
  · intro h
    exact ⟨fun x hx => by simpa using (h x).mp hx,
           fun x hx => by simpa using (h x).mpr hx⟩

/-- C10 (claim confirmed): `are_questions_identical` compares options as
Python sets, so it is invariant under permutation and duplication of the
options list; two questions with equal question text, equal answer and
set-equal options are judged identical, and `is_duplicate_question` reports
a duplicate whenever the stream holds a stored copy whose options are a
permutation of the new question's. -/
theorem duplicate_detection_set_invariant :
    (∀ (q1 q2 : StoredQuestion) (opts : List Str),
      (∀ x, x ∈ opts ↔ x ∈ q2.options) →
      are_questions_identical q1 { q2 with options := opts }
        = are_questions_identical q1 q2) ∧
    (∀ q1 q2 : StoredQuestion, q1.question = q2.question → q1.answer = q2.answer →
      (∀ x, x ∈ q1.options ↔ x ∈ q2.options) →
      are_questions_identical q1 q2 = true) ∧
    (∀ (docs : List StoredQuestion) (d q : StoredQuestion), d ∈ docs →
      d.question = q.question → d.answer = q.answer → q.options.Perm d.options →
      is_duplicate_question docs q = true) := by
  refine ⟨?_, ?_, ?_⟩
  · intro q1 q2 opts h
    have hs : sameSet q1.options opts = sameSet q1.options q2.options := by
      rw [Bool.eq_iff_iff, sameSet_eq_true_iff, sameSet_eq_true_iff]
      constructor
      · intro hall x; exact (hall x).trans (h x)
      · intro hall x; exact (hall x).trans (h x).symm
    simp only [are_questions_identical]
    rw [hs]
  · intro q1 q2 hq ha hopts
    simp only [are_questions_identical, Bool.and_eq_true, beq_iff_eq]
    exact ⟨⟨hq, ha⟩, (sameSet_eq_true_iff _ _).mpr hopts⟩
  · intro docs d q hd hq ha hperm
    simp only [is_duplicate_question, List.any_eq_true]
    refine ⟨d, hd, ?_⟩
    simp only [are_questions_identical, Bool.and_eq_true, beq_iff_eq]
    exact ⟨⟨hq, ha⟩,
      (sameSet_eq_true_iff _ _).mpr (fun x => (hperm.mem_iff).symm)⟩

/-- C10 (witness): a stored copy with the options in reverse order makes the
new question a reported duplicate. -/
theorem duplicate_detection_set_invariant_witness :
    (demoStored ∈ [demoStored]) ∧
    demoStoredPerm.options.Perm demoStored.options ∧
    is_duplicate_question [demoStored] demoStoredPerm = true :=
  ⟨by decide, by decide,
   duplicate_detection_set_invariant.2.2 [demoStored] demoStored demoStoredPerm
     (by decide) rfl rfl (by decide)⟩

/-! ## Claim theorems: session advance -/

/-- C2 (counterexample to the claim as stated): advancing a fresh
one-question session whose next-question fetch fails leaves the current
index unchanged, but the session state is *not* unchanged: the unanswered
question was marked skipped (`answers[0] = -1`), `wrong_answers` was
incremented, and the scored record was appended to `quiz_data` — and these
pre-fetch mutations persist after the failure. -/
theorem next_question_failure_still_mutates :
    (next_question demoSession none).current_question = demoSession.current_question ∧
    (next_question demoSession none).wrong_answers = 1 ∧
    demoSession.wrong_answers = 0 ∧
    (next_question demoSession none).quiz_data.length = 1 ∧
    demoSession.quiz_data.length = 0 ∧
    (next_question demoSession none).answers 0 = some (-1) ∧
    demoSession.answers 0 = none :=
  ⟨rfl, rfl, rfl, rfl, rfl, rfl, rfl⟩

/-- C2 (amended claim): when the quiz is not completed by this step and a
fresh question must be fetched, a failed fetch leaves the current question
index unchanged (incremented, then rolled back), appends no new question,
and leaves the completion flag alone — but the scored `quiz_data` history
still grows by exactly the one record appended before the fetch (and the
skip-marking / wrong-answer mutations made before the fetch likewise
persist). -/
theorem next_question_failure_no_advance (s : SessionState)
    (hmax : s.current_question + 1 < s.max_questions_override)
    (hlen : s.questions.length ≤ s.current_question + 1) :
    (next_question s none).current_question = s.current_question ∧
    (next_question s none).questions.length = s.questions.length ∧
    (next_question s none).quiz_complete = s.quiz_complete ∧
    (next_question s none).quiz_data.length = s.quiz_data.length + 1 := by
  simp only [next_question]
  cases hA : s.answers s.current_question with
  | none =>
    simp only [List.length_set, List.length_append]
    rw [if_neg (by omega)]
    rw [if_pos (by simpa [List.length_set] using hlen)]
    simp
  | some a =>
    simp only [List.length_set, List.length_append]
    rw [if_neg (by omega)]
    rw [if_pos (by simpa [List.length_set] using hlen)]
    simp

/-- C2 (witness): the amended claim on the fresh one-question demo
session. -/
theorem next_question_failure_no_advance_witness :
    (demoSession.current_question + 1 < demoSession.max_questions_override) ∧
    (demoSession.questions.length ≤ demoSession.current_question + 1) ∧
    ((next_question demoSession none).current_question
        = demoSession.current_question ∧
      (next_question demoSession none).questions.length
        = demoSession.questions.length ∧
      (next_question demoSession none).quiz_complete = demoSession.quiz_complete ∧
      (next_question demoSession none).quiz_data.length
        = demoSession.quiz_data.length + 1) :=
  ⟨by decide, by decide,
   next_question_failure_no_advance demoSession (by decide) (by decide)⟩
